import Mathlib

/-
Verification of the behavior-tree execution engine in src/src/behavior_tree.rs.

The engine is generic over an environment type `E`, and composite nodes own a
vector of heterogeneous child nodes (`Vec<Box<dyn BtNode<E>>>`).  We embed a
child node shallowly as a value of an arbitrary type `τ` together with a tick
function `ct : τ → E → Option (BtState × τ × E)`: ticking a child in state `c`
with environment `env` either panics (`none`) or returns the reported status,
the child's updated internal state, and the updated environment.  A composite
that panics (Rust `panic!` / out-of-bounds indexing) is modelled as `none`.
-/

namespace BT

/-- The four-valued status enum `BtState` of src/src/behavior_tree.rs. -/
inductive BtState : Type where
  | NotStarted
  | Running
  | Success
  | Failure
  deriving DecidableEq, Repr

/-- `Lambda::tick` simply invokes the stored closure on the environment
(src/src/behavior_tree.rs line 82-84); the closure returns a status and may
mutate the environment. -/
def lambdaTick {E : Type} (func : E → BtState × E) (env : E) : BtState × E :=
  func env

/-- The closure built by the `condition` constructor
(src/src/behavior_tree.rs lines 21-29): run the predicate, return `Success`
when it yields true and `Failure` otherwise. -/
def conditionFunc {E : Type} (p : E → Bool × E) : E → BtState × E :=
  fun e =>
    match p e with
    | (b, e2) => (if b then BtState.Success else BtState.Failure, e2)

/-- The private state captured by the closure built by `run_or_fail`
(src/src/behavior_tree.rs line 40): a single `BtState` value, initialized to
`NotStarted`. -/
structure RunOrFail : Type where
  state : BtState
  deriving DecidableEq, Repr

/-- Initial internal state of a `run_or_fail` node
(src/src/behavior_tree.rs line 40). -/
def runOrFailInit : RunOrFail := ⟨BtState.NotStarted⟩

/-- One tick of the closure built by `run_or_fail(func)`
(src/src/behavior_tree.rs lines 39-56).  On internal state `Running` it resets
to `NotStarted` and reports `Success`; on `NotStarted` it invokes the
predicate, issuing the action (`Running`) on true and reporting `Failure`
(state unchanged) on false; the `Failure | Success` branch is `unreachable!()`,
modelled as `none`. -/
def RunOrFail.tick {E : Type} (func : E → Bool × E) (n : RunOrFail) (env : E) :
    Option (BtState × RunOrFail × E) :=
  match n.state with
  | BtState.Running => some (BtState.Success, ⟨BtState.NotStarted⟩, env)
  | BtState.NotStarted =>
    match func env with
    | (true, env2) => some (BtState.Running, ⟨BtState.Running⟩, env2)
    | (false, env2) => some (BtState.Failure, ⟨BtState.NotStarted⟩, env2)
  | BtState.Failure => none
  | BtState.Success => none

/-- The `Sequence` composite (src/src/behavior_tree.rs lines 87-99): an owned
list of children plus the persistent current-child cursor. -/
structure Sequence (τ : Type) : Type where
  children : List τ
  current_child : Nat

/-- The `sequence` constructor (src/src/behavior_tree.rs lines 31-33, 92-99):
cursor starts at 0. -/
def sequence {τ : Type} (children : List τ) : Sequence τ :=
  ⟨children, 0⟩

/-- The loop body of `Sequence::tick` (src/src/behavior_tree.rs lines
101-123), with an explicit fuel argument for structural recursion.  Each
iteration ticks the child at the cursor: `Running` returns `Running` with the
cursor unchanged; `Failure` resets the cursor to 0 and returns `Failure`;
`Success` advances the cursor, returning `Success` with cursor 0 when the end
is reached and otherwise looping; a child reporting `NotStarted` panics
(`none`).  An out-of-range cursor is an out-of-bounds index panic (`none`).
The Rust loop terminates because the cursor strictly increases and is bounded
by the child count, so fuel `children.length + 1` (supplied by
`Sequence.tick`) is never exhausted; running out of fuel can only happen at an
out-of-range cursor, where the Rust code panics as well. -/
def seqTickLoop {τ E : Type} (ct : τ → E → Option (BtState × τ × E)) :
    Nat → List τ → Nat → E → Option (BtState × List τ × Nat × E)
  | 0, _, _, _ => none
  | fuel + 1, children, cur, env =>
    match children.get? cur with
    | none => none
    | some c =>
      match ct c env with
      | none => none
      | some (ret, c2, env2) =>
        match ret with
        | BtState.Running => some (BtState.Running, children.set cur c2, cur, env2)
        | BtState.Failure => some (BtState.Failure, children.set cur c2, 0, env2)
        | BtState.Success =>
          if cur + 1 = (children.set cur c2).length then
            some (BtState.Success, children.set cur c2, 0, env2)
          else
            seqTickLoop ct fuel (children.set cur c2) (cur + 1) env2
        | BtState.NotStarted => none

/-- `Sequence::tick` (src/src/behavior_tree.rs lines 101-123): run the loop
from the stored cursor, threading the children's updated states and the
environment. -/
def Sequence.tick {τ E : Type} (ct : τ → E → Option (BtState × τ × E))
    (s : Sequence τ) (env : E) : Option (BtState × Sequence τ × E) :=
  match seqTickLoop ct (s.children.length + 1) s.children s.current_child env with
  | none => none
  | some (ret, ch, cur, env2) => some (ret, ⟨ch, cur⟩, env2)

/-- The `Selector` composite (src/src/behavior_tree.rs lines 125-137). -/
structure Selector (τ : Type) : Type where
  children : List τ
  current_child : Nat

/-- The `select` constructor (src/src/behavior_tree.rs lines 35-37, 131-136):
cursor starts at 0. -/
def select {τ : Type} (children : List τ) : Selector τ :=
  ⟨children, 0⟩

/-- The loop body of `Selector::tick` (src/src/behavior_tree.rs lines
139-161): the exact dual of `seqTickLoop` with `Success` and `Failure`
swapped — `Success` resets the cursor and returns immediately, `Failure`
advances the cursor and loops (returning `Failure` with cursor 0 after the
last child), `Running` returns with the cursor unchanged, and a child
reporting `NotStarted` panics. -/
def selTickLoop {τ E : Type} (ct : τ → E → Option (BtState × τ × E)) :
    Nat → List τ → Nat → E → Option (BtState × List τ × Nat × E)
  | 0, _, _, _ => none
  | fuel + 1, children, cur, env =>
    match children.get? cur with
    | none => none
    | some c =>
      match ct c env with
      | none => none
      | some (ret, c2, env2) =>
        match ret with
        | BtState.Running => some (BtState.Running, children.set cur c2, cur, env2)
        | BtState.Success => some (BtState.Success, children.set cur c2, 0, env2)
        | BtState.Failure =>
          if cur + 1 = (children.set cur c2).length then
            some (BtState.Failure, children.set cur c2, 0, env2)
          else
            selTickLoop ct fuel (children.set cur c2) (cur + 1) env2
        | BtState.NotStarted => none

/-- `Selector::tick` (src/src/behavior_tree.rs lines 139-161). -/
def Selector.tick {τ E : Type} (ct : τ → E → Option (BtState × τ × E))
    (s : Selector τ) (env : E) : Option (BtState × Selector τ × E) :=
  match selTickLoop ct (s.children.length + 1) s.children s.current_child env with
  | none => none
  | some (ret, ch, cur, env2) => some (ret, ⟨ch, cur⟩, env2)

/-- Modelled from the spec: the `interrupt` decorator is imported by
src/src/bt_tasks.rs from the behavior_tree module, but its defining source is
not under src/; this definition follows spec section 4.5.  The node owns a
primary subtree and a fallback subtree (with their own child-state types). -/
structure Interrupt (π φ : Type) : Type where
  primary : π
  fallback : φ

/-- Modelled from the spec: one tick of the interrupt decorator (spec section
4.5).  First evaluate the monitor predicate on the environment; if true, tick
the fallback subtree and return its status, otherwise tick the primary
subtree and return its status.  The subtree that is not ticked keeps its
internal state unchanged. -/
def Interrupt.tick {π φ E : Type} (monitor : E → Bool)
    (pTick : π → E → Option (BtState × π × E))
    (fTick : φ → E → Option (BtState × φ × E))
    (n : Interrupt π φ) (env : E) : Option (BtState × Interrupt π φ × E) :=
  if monitor env then
    match fTick n.fallback env with
    | none => none
    | some (ret, f2, env2) => some (ret, ⟨n.primary, f2⟩, env2)
  else
    match pTick n.primary env with
    | none => none
    | some (ret, p2, env2) => some (ret, ⟨p2, n.fallback⟩, env2)

/-- Instrumentation used to observe visit order: wrap each child (an arbitrary
node state `c : τ` tagged with its index `i`) as a node over the extended
environment `E × List Nat` that behaves exactly like the child and appends its
index to the log each time it is ticked.  This is a legitimate child of the
generic composites (in the source, a `lambda` wrapping the child's tick that
also records the index). -/
def logTick {τ E : Type} (ct : τ → E → Option (BtState × τ × E)) :
    Nat × τ → E × List Nat → Option (BtState × (Nat × τ) × (E × List Nat))
  | (i, c), (env, log) =>
    match ct c env with
    | none => none
    | some (ret, c2, env2) => some (ret, (i, c2), (env2, log ++ [i]))

/-
Helper lemmas about the Sequence loop, stated over index-tagged, log-wrapped
children so that the visit order is observable in the environment.
-/

/-- If the children at indices `c, c+1, ..., c+m-1` all report `Success`
(whatever the environment), the Sequence loop falls through them within the
single tick, visiting each exactly once in index order, and continues at index
`c+m` with the tags, the length, and the not-yet-visited children unchanged. -/
theorem seq_reach {τ E : Type} (ct : τ → E → Option (BtState × τ × E)) :
    ∀ (m fuel : Nat) (children : List (Nat × τ)) (c : Nat) (env : E) (log : List Nat),
    c + m < children.length →
    (∀ i x, children.get? i = some x → x.1 = i) →
    (∀ i x, c ≤ i → i < c + m → children.get? i = some x →
      ∀ env2, ∃ y e2, ct x.2 env2 = some (BtState.Success, y, e2)) →
    ∃ children2 env2,
      seqTickLoop (logTick ct) (fuel + m) children c (env, log) =
        seqTickLoop (logTick ct) fuel children2 (c + m) (env2, log ++ List.range' c m) ∧
      children2.length = children.length ∧
      (∀ i x, children2.get? i = some x → x.1 = i) ∧
      (∀ j, c + m ≤ j → children2.get? j = children.get? j) := by
  intro m
  induction m with
  | zero =>
    intro fuel children c env log _ htag _
    exact ⟨children, env, by simp, rfl, htag, fun j _ => rfl⟩
  | succ m ih =>
    intro fuel children c env log hlt htag hS
    have hc : c < children.length := by omega
    rcases hxeq : children.get ⟨c, hc⟩ with ⟨i, cst⟩
    have hx : children.get? c = some (i, cst) := by
      rw [List.get?_eq_get hc, hxeq]
    have htagc : i = c := htag c (i, cst) hx
    subst htagc
    obtain ⟨y, e2, hct⟩ := hS i (i, cst) (Nat.le_refl i) (by omega) hx env
    have hct2 : ct cst env = some (BtState.Success, y, e2) := hct
    have hne : ¬ (i + 1 = (children.set i (i, y)).length) := by
      simp only [List.length_set]
      omega
    obtain ⟨children2, env2, heq, hlen, htag2, hpres⟩ :=
      ih fuel (children.set i (i, y)) (i + 1) e2 (log ++ [i])
        (by simp only [List.length_set]; omega)
        (by
          intro j x hj
          by_cases hji : j = i
          · subst hji
            rw [List.get?_set_eq_of_lt _ (by omega)] at hj
            cases hj
            rfl
          · rw [List.get?_set_ne _ _ (fun h => hji h.symm)] at hj
            exact htag j x hj)
        (by
          intro j x hj1 hj2 hj env3
          rw [List.get?_set_ne _ _ (by omega)] at hj
          exact hS j x (by omega) (by omega) hj env3)
    refine ⟨children2, env2, ?_, ?_, htag2, ?_⟩
    · have hfm : fuel + (m + 1) = fuel + m + 1 := rfl
      rw [hfm]
      simp only [seqTickLoop, hx, logTick, hct2]
      rw [if_neg hne, heq]
      have harr : i + 1 + m = i + (m + 1) := by omega
      have hlog : (log ++ [i]) ++ List.range' (i + 1) m = log ++ List.range' i (m + 1) := by
        rw [List.append_assoc, List.range'_succ]
        rfl
      rw [harr, hlog]
    · rw [hlen, List.length_set]
    · intro j hj
      rw [hpres j (by omega), List.get?_set_ne _ _ (by omega)]

/-- One iteration of the Sequence loop when the child at the cursor reports
`Running`: return `Running` with the cursor unchanged. -/
theorem seqTickLoop_step_running {τ E : Type} (ct : τ → E → Option (BtState × τ × E))
    (fuel : Nat) (children : List (Nat × τ)) (cur : Nat) (env : E) (log : List Nat)
    (i : Nat) (cst : τ) (y : τ) (e2 : E)
    (hget : children.get? cur = some (i, cst))
    (hct : ct cst env = some (BtState.Running, y, e2)) :
    seqTickLoop (logTick ct) (fuel + 1) children cur (env, log) =
      some (BtState.Running, children.set cur (i, y), cur, (e2, log ++ [i])) := by
  simp only [seqTickLoop, hget, logTick, hct]

/-- One iteration of the Sequence loop when the child at the cursor reports
`Failure`: reset the cursor to 0 and return `Failure`. -/
theorem seqTickLoop_step_failure {τ E : Type} (ct : τ → E → Option (BtState × τ × E))
    (fuel : Nat) (children : List (Nat × τ)) (cur : Nat) (env : E) (log : List Nat)
    (i : Nat) (cst : τ) (y : τ) (e2 : E)
    (hget : children.get? cur = some (i, cst))
    (hct : ct cst env = some (BtState.Failure, y, e2)) :
    seqTickLoop (logTick ct) (fuel + 1) children cur (env, log) =
      some (BtState.Failure, children.set cur (i, y), 0, (e2, log ++ [i])) := by
  simp only [seqTickLoop, hget, logTick, hct]

/-- One iteration of the Sequence loop when the last child reports `Success`:
reset the cursor to 0 and return `Success`. -/
theorem seqTickLoop_step_success_last {τ E : Type} (ct : τ → E → Option (BtState × τ × E))
    (fuel : Nat) (children : List (Nat × τ)) (cur : Nat) (env : E) (log : List Nat)
    (i : Nat) (cst : τ) (y : τ) (e2 : E)
    (hget : children.get? cur = some (i, cst))
    (hct : ct cst env = some (BtState.Success, y, e2))
    (hcond : cur + 1 = (children.set cur (i, y)).length) :
    seqTickLoop (logTick ct) (fuel + 1) children cur (env, log) =
      some (BtState.Success, children.set cur (i, y), 0, (e2, log ++ [i])) := by
  simp only [seqTickLoop, hget, logTick, hct]
  rw [if_pos hcond]

/-- One iteration of the Sequence loop when the child at the cursor reports
`NotStarted`: the composite panics. -/
theorem seqTickLoop_step_notstarted {τ E : Type} (ct : τ → E → Option (BtState × τ × E))
    (fuel : Nat) (children : List (Nat × τ)) (cur : Nat) (env : E) (log : List Nat)
    (i : Nat) (cst : τ) (y : τ) (e2 : E)
    (hget : children.get? cur = some (i, cst))
    (hct : ct cst env = some (BtState.NotStarted, y, e2)) :
    seqTickLoop (logTick ct) (fuel + 1) children cur (env, log) = none := by
  simp only [seqTickLoop, hget, logTick, hct]

/-- C1: for every Sequence of n children (n >= 1), if every child visited
during one call to the Sequence's tick returns Success, that single tick call
returns Success and the cursor is 0 afterward, for every n; the log shows that
all n children were ticked exactly once, in index order 0, 1, ..., n-1, within
that one tick. -/
theorem claim1_seq_all_success {τ E : Type} (ct : τ → E → Option (BtState × τ × E))
    (children : List (Nat × τ)) (env : E)
    (hne : children ≠ [])
    (htag : ∀ i x, children.get? i = some x → x.1 = i)
    (hS : ∀ i x, children.get? i = some x →
      ∀ env2, ∃ y e2, ct x.2 env2 = some (BtState.Success, y, e2)) :
    ∃ ch2 env2,
      Sequence.tick (logTick ct) (sequence children) (env, []) =
        some (BtState.Success, ⟨ch2, 0⟩, (env2, List.range children.length)) := by
  have hn : 0 < children.length := List.length_pos.mpr hne
  obtain ⟨ch2, e3, heq, hlen, htag2, hpres⟩ :=
    seq_reach ct (children.length - 1) 2 children 0 env [] (by omega) htag
      (fun i x _ _ hx env2 => hS i x hx env2)
  have hc : children.length - 1 < children.length := by omega
  rcases hxeq : children.get ⟨children.length - 1, hc⟩ with ⟨j, cst⟩
  have hget : children.get? (children.length - 1) = some (j, cst) := by
    rw [List.get?_eq_get hc, hxeq]
  have htagj : j = children.length - 1 := htag _ _ hget
  subst htagj
  have hget2 : ch2.get? (children.length - 1) = some (children.length - 1, cst) := by
    rw [hpres _ (by omega)]
    exact hget
  obtain ⟨y, e4, hct⟩ := hS _ _ hget e3
  have hct2 : ct cst e3 = some (BtState.Success, y, e4) := hct
  have hcond : children.length - 1 + 1 =
      (ch2.set (children.length - 1) (children.length - 1, y)).length := by
    rw [List.length_set, hlen]
    omega
  refine ⟨ch2.set (children.length - 1) (children.length - 1, y), e4, ?_⟩
  simp only [Sequence.tick, sequence]
  rw [(by omega : children.length + 1 = 2 + (children.length - 1)), heq,
    (by omega : 0 + (children.length - 1) = children.length - 1)]
  rw [List.nil_append]
  rw [(by rfl : (2 : Nat) = 1 + 1),
    seqTickLoop_step_success_last ct 1 ch2 (children.length - 1) e3
      (List.range' 0 (children.length - 1)) (children.length - 1) cst y e4 hget2 hct2 hcond]
  have hrange : List.range' 0 (children.length - 1) ++ [children.length - 1] =
      List.range children.length := by
    have hj : children.length = children.length - 1 + 1 := by omega
    rw [List.range_eq_range', hj, List.range'_1_concat, Nat.zero_add,
      (by omega : children.length - 1 + 1 - 1 = children.length - 1)]
  rw [hrange]

/-- Witness for C1 at a concrete input: a one-child Sequence whose child
always reports Success. -/
theorem claim1_seq_all_success_witness :
    ∃ ch2 env2,
      Sequence.tick (logTick (fun (_ : Unit) (_ : Unit) => some (BtState.Success, (), ())))
        (sequence [(0, ())]) ((), []) =
        some (BtState.Success, (⟨ch2, 0⟩ : Sequence (Nat × Unit)), (env2, List.range 1)) :=
  claim1_seq_all_success _ [(0, ())] ()
    (by simp)
    (by
      intro i x h
      match i, h with
      | 0, h =>
        injection h with h2
        rw [← h2]
      | n + 1, h => simp [List.get?] at h)
    (fun _ _ _ _ => ⟨(), (), rfl⟩)

/-- The Sequence loop only ever appends to the log of the instrumented
environment. -/
theorem seq_log_extends {τ E : Type} (ct : τ → E → Option (BtState × τ × E)) :
    ∀ (fuel : Nat) (children : List (Nat × τ)) (cur : Nat) (env : E) (log : List Nat)
      (out : BtState × List (Nat × τ) × Nat × (E × List Nat)),
    seqTickLoop (logTick ct) fuel children cur (env, log) = some out →
    ∃ tail, out.2.2.2.2 = log ++ tail := by
  intro fuel
  induction fuel with
  | zero =>
    intro children cur env log out h
    simp [seqTickLoop] at h
  | succ fuel ih =>
    intro children cur env log out h
    rcases hget : children.get? cur with _ | ⟨i, cst⟩
    · simp only [seqTickLoop, hget] at h
      exact Option.noConfusion h
    · rcases hct : ct cst env with _ | ⟨ret, c2, e2⟩
      · simp only [seqTickLoop, hget, logTick, hct] at h
        exact Option.noConfusion h
      · cases ret with
        | Running =>
          rw [seqTickLoop_step_running ct fuel children cur env log i cst c2 e2 hget hct] at h
          cases h
          exact ⟨[i], rfl⟩
        | Failure =>
          rw [seqTickLoop_step_failure ct fuel children cur env log i cst c2 e2 hget hct] at h
          cases h
          exact ⟨[i], rfl⟩
        | NotStarted =>
          rw [seqTickLoop_step_notstarted ct fuel children cur env log i cst c2 e2 hget hct] at h
          cases h
        | Success =>
          by_cases hcond : cur + 1 = (children.set cur (i, c2)).length
          · rw [seqTickLoop_step_success_last ct fuel children cur env log i cst c2 e2
              hget hct hcond] at h
            cases h
            exact ⟨[i], rfl⟩
          · have hstep : seqTickLoop (logTick ct) (fuel + 1) children cur (env, log) =
                seqTickLoop (logTick ct) fuel (children.set cur (i, c2)) (cur + 1)
                  (e2, log ++ [i]) := by
              simp only [seqTickLoop, hget, logTick, hct]
              rw [if_neg hcond]
            rw [hstep] at h
            obtain ⟨tail, htail⟩ := ih _ _ _ _ _ h
            exact ⟨[i] ++ tail, by rw [htail, List.append_assoc]⟩

/-- Any tick of a Sequence (with index-tagged, log-wrapped children) that
returns at all ticks the child at the cursor first: the log of visited
indices begins with the cursor value. -/
theorem seq_tick_first_visit {τ E : Type} (ct : τ → E → Option (BtState × τ × E))
    (s : Sequence (Nat × τ)) (env : E)
    (out : BtState × Sequence (Nat × τ) × (E × List Nat))
    (htag : ∀ i x, s.children.get? i = some x → x.1 = i)
    (h : Sequence.tick (logTick ct) s (env, []) = some out) :
    out.2.2.2.head? = some s.current_child := by
  rcases s with ⟨children, cur⟩
  simp only [Sequence.tick] at h
  rcases hloop : seqTickLoop (logTick ct) (children.length + 1) children cur (env, []) with
    _ | ⟨ret, ch, cur2, e2, log⟩
  · rw [hloop] at h
    cases h
  · rw [hloop] at h
    cases h
    rcases hget : children.get? cur with _ | ⟨i, cst⟩
    · simp only [seqTickLoop, hget] at hloop
      exact Option.noConfusion hloop
    · have htagi : i = cur := htag cur (i, cst) hget
      rw [htagi] at hget
      rcases hct : ct cst env with _ | ⟨ret2, c2, e3⟩
      · simp only [seqTickLoop, hget, logTick, hct] at hloop
        exact Option.noConfusion hloop
      · cases ret2 with
        | Running =>
          rw [seqTickLoop_step_running ct children.length children cur env [] cur cst c2 e3
            hget hct] at hloop
          cases hloop
          rfl
        | Failure =>
          rw [seqTickLoop_step_failure ct children.length children cur env [] cur cst c2 e3
            hget hct] at hloop
          cases hloop
          rfl
        | NotStarted =>
          rw [seqTickLoop_step_notstarted ct children.length children cur env [] cur cst c2 e3
            hget hct] at hloop
          cases hloop
        | Success =>
          by_cases hcond : cur + 1 = (children.set cur (cur, c2)).length
          · rw [seqTickLoop_step_success_last ct children.length children cur env [] cur cst c2 e3
              hget hct hcond] at hloop
            cases hloop
            rfl
          · have hstep : seqTickLoop (logTick ct) (children.length + 1) children cur (env, []) =
                seqTickLoop (logTick ct) children.length (children.set cur (cur, c2)) (cur + 1)
                  (e3, [] ++ [cur]) := by
              simp only [seqTickLoop, hget, logTick, hct]
              rw [if_neg hcond]
            rw [hstep] at hloop
            obtain ⟨tail, htail⟩ := seq_log_extends ct _ _ _ _ _ _ hloop
            have htail2 : log = [] ++ [cur] ++ tail := htail
            rw [htail2]
            rfl

/-- Setting position k of an index-tagged child list to a value tagged k
preserves the tag invariant. -/
theorem tags_after_set {τ : Type} (children : List (Nat × τ)) (k : Nat) (y : τ)
    (htag : ∀ i x, children.get? i = some x → x.1 = i) :
    ∀ i x, (children.set k (k, y)).get? i = some x → x.1 = i := by
  intro i x h
  by_cases hik : i = k
  · subst hik
    by_cases hkl : i < children.length
    · rw [List.get?_set_eq_of_lt _ hkl] at h
      cases h
      rfl
    · have hnone : (children.set i (i, y)).get? i = none :=
        List.get?_eq_none.mpr (by rw [List.length_set]; omega)
      rw [hnone] at h
      exact Option.noConfusion h
  · rw [List.get?_set_ne _ _ (fun hh => hik hh.symm)] at h
    exact htag i x h

/-- C2: for every Sequence, if the children visited before position k return
Success and the child at position k returns Failure, the Sequence's tick
returns Failure with the cursor 0 on return (the log shows children c..k were
visited in order), and the next tick of the Sequence visits child 0 first. -/
theorem claim2_seq_failure_resets {τ E : Type} (ct : τ → E → Option (BtState × τ × E))
    (children : List (Nat × τ)) (c k : Nat) (env : E)
    (hck : c ≤ k) (hk : k < children.length)
    (htag : ∀ i x, children.get? i = some x → x.1 = i)
    (hpre : ∀ i x, c ≤ i → i < k → children.get? i = some x →
      ∀ env2, ∃ y e2, ct x.2 env2 = some (BtState.Success, y, e2))
    (hfail : ∀ x, children.get? k = some x →
      ∀ env2, ∃ y e2, ct x.2 env2 = some (BtState.Failure, y, e2)) :
    ∃ ch2 env2,
      Sequence.tick (logTick ct) ⟨children, c⟩ (env, []) =
        some (BtState.Failure, ⟨ch2, 0⟩, (env2, List.range' c (k - c + 1))) ∧
      (∀ out2 env3,
        Sequence.tick (logTick ct) ⟨ch2, 0⟩ (env3, []) = some out2 →
        out2.2.2.2.head? = some 0) := by
  obtain ⟨ch2, e3, heq, hlen, htag2, hpres⟩ :=
    seq_reach ct (k - c) (children.length + 1 - (k - c)) children c env [] (by omega) htag
      (fun i x h1 h2 hx env2 => hpre i x h1 (by omega) hx env2)
  have hkc : c + (k - c) = k := by omega
  rw [hkc] at heq hpres
  have hgetc : children.get? k = some (children.get ⟨k, hk⟩) := List.get?_eq_get hk
  rcases hxeq : children.get ⟨k, hk⟩ with ⟨j, cst⟩
  rw [hxeq] at hgetc
  have htagj : j = k := htag _ _ hgetc
  rw [htagj] at hgetc
  have hget2 : ch2.get? k = some (k, cst) := by
    rw [hpres k (Nat.le_refl k)]
    exact hgetc
  obtain ⟨y, e4, hctf⟩ := hfail _ hgetc e3
  have hctf2 : ct cst e3 = some (BtState.Failure, y, e4) := hctf
  refine ⟨ch2.set k (k, y), e4, ?_, ?_⟩
  · simp only [Sequence.tick]
    rw [(by omega : children.length + 1 = (children.length + 1 - (k - c)) + (k - c)), heq]
    rw [List.nil_append]
    rw [(by omega : children.length + 1 - (k - c) = (children.length - (k - c)) + 1)]
    rw [seqTickLoop_step_failure ct (children.length - (k - c)) ch2 k e3
      (List.range' c (k - c)) k cst y e4 hget2 hctf2]
    have hrange : List.range' c (k - c) ++ [k] = List.range' c (k - c + 1) := by
      rw [List.range'_1_concat, hkc]
    rw [hrange]
  · intro out2 env3 htick
    exact seq_tick_first_visit ct ⟨ch2.set k (k, y), 0⟩ env3 out2
      (tags_after_set ch2 k y htag2) htick

/-- Witness for C2 at a concrete input: a one-child Sequence whose child
always reports Failure. -/
theorem claim2_seq_failure_resets_witness :
    ∃ ch2 env2,
      Sequence.tick (logTick (fun (_ : Unit) (_ : Unit) => some (BtState.Failure, (), ())))
        (⟨[(0, ())], 0⟩ : Sequence (Nat × Unit)) ((), []) =
        some (BtState.Failure, ⟨ch2, 0⟩, (env2, List.range' 0 1)) ∧
      (∀ out2 env3,
        Sequence.tick (logTick (fun (_ : Unit) (_ : Unit) => some (BtState.Failure, (), ())))
          (⟨ch2, 0⟩ : Sequence (Nat × Unit)) (env3, []) = some out2 →
        out2.2.2.2.head? = some 0) :=
  claim2_seq_failure_resets _ [(0, ())] 0 0 ()
    (Nat.le_refl 0)
    (by decide)
    (by
      intro i x h
      match i, h with
      | 0, h =>
        injection h with h2
        rw [← h2]
      | n + 1, h => simp [List.get?] at h)
    (fun i x h1 h2 hx env2 => absurd h2 (by omega))
    (fun _ _ _ => ⟨(), (), rfl⟩)

/-- C3: for every Sequence, if the children visited before position k return
Success and the child at position k returns Running, the Sequence's tick
returns Running with the cursor left at k (the log shows children c..k were
visited in order), and the next tick of the Sequence visits child k first, so
no child with a smaller index is re-ticked before child k. -/
theorem claim3_seq_running_resumes {τ E : Type} (ct : τ → E → Option (BtState × τ × E))
    (children : List (Nat × τ)) (c k : Nat) (env : E)
    (hck : c ≤ k) (hk : k < children.length)
    (htag : ∀ i x, children.get? i = some x → x.1 = i)
    (hpre : ∀ i x, c ≤ i → i < k → children.get? i = some x →
      ∀ env2, ∃ y e2, ct x.2 env2 = some (BtState.Success, y, e2))
    (hrun : ∀ x, children.get? k = some x →
      ∀ env2, ∃ y e2, ct x.2 env2 = some (BtState.Running, y, e2)) :
    ∃ ch2 env2,
      Sequence.tick (logTick ct) ⟨children, c⟩ (env, []) =
        some (BtState.Running, ⟨ch2, k⟩, (env2, List.range' c (k - c + 1))) ∧
      (∀ out2 env3,
        Sequence.tick (logTick ct) ⟨ch2, k⟩ (env3, []) = some out2 →
        out2.2.2.2.head? = some k) := by
  obtain ⟨ch2, e3, heq, hlen, htag2, hpres⟩ :=
    seq_reach ct (k - c) (children.length + 1 - (k - c)) children c env [] (by omega) htag
      (fun i x h1 h2 hx env2 => hpre i x h1 (by omega) hx env2)
  have hkc : c + (k - c) = k := by omega
  rw [hkc] at heq hpres
  have hgetc : children.get? k = some (children.get ⟨k, hk⟩) := List.get?_eq_get hk
  rcases hxeq : children.get ⟨k, hk⟩ with ⟨j, cst⟩
  rw [hxeq] at hgetc
  have htagj : j = k := htag _ _ hgetc
  rw [htagj] at hgetc
  have hget2 : ch2.get? k = some (k, cst) := by
    rw [hpres k (Nat.le_refl k)]
    exact hgetc
  obtain ⟨y, e4, hctr⟩ := hrun _ hgetc e3
  have hctr2 : ct cst e3 = some (BtState.Running, y, e4) := hctr
  refine ⟨ch2.set k (k, y), e4, ?_, ?_⟩
  · simp only [Sequence.tick]
    rw [(by omega : children.length + 1 = (children.length + 1 - (k - c)) + (k - c)), heq]
    rw [List.nil_append]
    rw [(by omega : children.length + 1 - (k - c) = (children.length - (k - c)) + 1)]
    rw [seqTickLoop_step_running ct (children.length - (k - c)) ch2 k e3
      (List.range' c (k - c)) k cst y e4 hget2 hctr2]
    have hrange : List.range' c (k - c) ++ [k] = List.range' c (k - c + 1) := by
      rw [List.range'_1_concat, hkc]
    rw [hrange]
  · intro out2 env3 htick
    exact seq_tick_first_visit ct ⟨ch2.set k (k, y), k⟩ env3 out2
      (tags_after_set ch2 k y htag2) htick

/-- Witness for C3 at a concrete input: a two-child Sequence whose children
always report Running; with entry cursor 1 the second child is the one
visited. -/
theorem claim3_seq_running_resumes_witness :
    ∃ ch2 env2,
      Sequence.tick (logTick (fun (_ : Unit) (_ : Unit) => some (BtState.Running, (), ())))
        (⟨[(0, ()), (1, ())], 1⟩ : Sequence (Nat × Unit)) ((), []) =
        some (BtState.Running, ⟨ch2, 1⟩, (env2, List.range' 1 1)) ∧
      (∀ out2 env3,
        Sequence.tick (logTick (fun (_ : Unit) (_ : Unit) => some (BtState.Running, (), ())))
          (⟨ch2, 1⟩ : Sequence (Nat × Unit)) (env3, []) = some out2 →
        out2.2.2.2.head? = some 1) :=
  claim3_seq_running_resumes _ [(0, ()), (1, ())] 1 1 ()
    (Nat.le_refl 1)
    (by decide)
    (by
      intro i x h
      match i, h with
      | 0, h =>
        injection h with h2
        rw [← h2]
      | 1, h =>
        injection h with h2
        rw [← h2]
      | n + 2, h => simp [List.get?] at h)
    (fun i x h1 h2 hx env2 => absurd h2 (by omega))
    (fun _ _ _ => ⟨(), (), rfl⟩)

/-- One iteration of the Selector loop when the child at the cursor reports
`Running`: return `Running` with the cursor unchanged. -/
theorem selTickLoop_step_running {τ E : Type} (ct : τ → E → Option (BtState × τ × E))
    (fuel : Nat) (children : List (Nat × τ)) (cur : Nat) (env : E) (log : List Nat)
    (i : Nat) (cst : τ) (y : τ) (e2 : E)
    (hget : children.get? cur = some (i, cst))
    (hct : ct cst env = some (BtState.Running, y, e2)) :
    selTickLoop (logTick ct) (fuel + 1) children cur (env, log) =
      some (BtState.Running, children.set cur (i, y), cur, (e2, log ++ [i])) := by
  simp only [selTickLoop, hget, logTick, hct]

/-- One iteration of the Selector loop when the child at the cursor reports
`Success`: reset the cursor to 0 and return `Success` immediately. -/
theorem selTickLoop_step_success {τ E : Type} (ct : τ → E → Option (BtState × τ × E))
    (fuel : Nat) (children : List (Nat × τ)) (cur : Nat) (env : E) (log : List Nat)
    (i : Nat) (cst : τ) (y : τ) (e2 : E)
    (hget : children.get? cur = some (i, cst))
    (hct : ct cst env = some (BtState.Success, y, e2)) :
    selTickLoop (logTick ct) (fuel + 1) children cur (env, log) =
      some (BtState.Success, children.set cur (i, y), 0, (e2, log ++ [i])) := by
  simp only [selTickLoop, hget, logTick, hct]

/-- One iteration of the Selector loop when the last child reports `Failure`:
reset the cursor to 0 and return `Failure`. -/
theorem selTickLoop_step_failure_last {τ E : Type} (ct : τ → E → Option (BtState × τ × E))
    (fuel : Nat) (children : List (Nat × τ)) (cur : Nat) (env : E) (log : List Nat)
    (i : Nat) (cst : τ) (y : τ) (e2 : E)
    (hget : children.get? cur = some (i, cst))
    (hct : ct cst env = some (BtState.Failure, y, e2))
    (hcond : cur + 1 = (children.set cur (i, y)).length) :
    selTickLoop (logTick ct) (fuel + 1) children cur (env, log) =
      some (BtState.Failure, children.set cur (i, y), 0, (e2, log ++ [i])) := by
  simp only [selTickLoop, hget, logTick, hct]
  rw [if_pos hcond]

/-- One iteration of the Selector loop when the child at the cursor reports
`NotStarted`: the composite panics. -/
theorem selTickLoop_step_notstarted {τ E : Type} (ct : τ → E → Option (BtState × τ × E))
    (fuel : Nat) (children : List (Nat × τ)) (cur : Nat) (env : E) (log : List Nat)
    (i : Nat) (cst : τ) (y : τ) (e2 : E)
    (hget : children.get? cur = some (i, cst))
    (hct : ct cst env = some (BtState.NotStarted, y, e2)) :
    selTickLoop (logTick ct) (fuel + 1) children cur (env, log) = none := by
  simp only [selTickLoop, hget, logTick, hct]

/-- Dual of seq_reach for the Selector: if the children at indices
`c, ..., c+m-1` all report `Failure`, the Selector loop tries them all within
the single tick, visiting each exactly once in index order, and continues at
index `c+m`. -/
theorem sel_reach {τ E : Type} (ct : τ → E → Option (BtState × τ × E)) :
    ∀ (m fuel : Nat) (children : List (Nat × τ)) (c : Nat) (env : E) (log : List Nat),
    c + m < children.length →
    (∀ i x, children.get? i = some x → x.1 = i) →
    (∀ i x, c ≤ i → i < c + m → children.get? i = some x →
      ∀ env2, ∃ y e2, ct x.2 env2 = some (BtState.Failure, y, e2)) →
    ∃ children2 env2,
      selTickLoop (logTick ct) (fuel + m) children c (env, log) =
        selTickLoop (logTick ct) fuel children2 (c + m) (env2, log ++ List.range' c m) ∧
      children2.length = children.length ∧
      (∀ i x, children2.get? i = some x → x.1 = i) ∧
      (∀ j, c + m ≤ j → children2.get? j = children.get? j) := by
  intro m
  induction m with
  | zero =>
    intro fuel children c env log _ htag _
    exact ⟨children, env, by simp, rfl, htag, fun j _ => rfl⟩
  | succ m ih =>
    intro fuel children c env log hlt htag hF
    have hc : c < children.length := by omega
    rcases hxeq : children.get ⟨c, hc⟩ with ⟨i, cst⟩
    have hx : children.get? c = some (i, cst) := by
      rw [List.get?_eq_get hc, hxeq]
    have htagc : i = c := htag c (i, cst) hx
    subst htagc
    obtain ⟨y, e2, hct⟩ := hF i (i, cst) (Nat.le_refl i) (by omega) hx env
    have hct2 : ct cst env = some (BtState.Failure, y, e2) := hct
    have hne : ¬ (i + 1 = (children.set i (i, y)).length) := by
      simp only [List.length_set]
      omega
    obtain ⟨children2, env2, heq, hlen, htag2, hpres⟩ :=
      ih fuel (children.set i (i, y)) (i + 1) e2 (log ++ [i])
        (by simp only [List.length_set]; omega)
        (by
          intro j x hj
          by_cases hji : j = i
          · subst hji
            rw [List.get?_set_eq_of_lt _ (by omega)] at hj
            cases hj
            rfl
          · rw [List.get?_set_ne _ _ (fun h => hji h.symm)] at hj
            exact htag j x hj)
        (by
          intro j x hj1 hj2 hj env3
          rw [List.get?_set_ne _ _ (by omega)] at hj
          exact hF j x (by omega) (by omega) hj env3)
    refine ⟨children2, env2, ?_, ?_, htag2, ?_⟩
    · have hfm : fuel + (m + 1) = fuel + m + 1 := rfl
      rw [hfm]
      simp only [selTickLoop, hx, logTick, hct2]
      rw [if_neg hne, heq]
      have harr : i + 1 + m = i + (m + 1) := by omega
      have hlog : (log ++ [i]) ++ List.range' (i + 1) m = log ++ List.range' i (m + 1) := by
        rw [List.append_assoc, List.range'_succ]
        rfl
      rw [harr, hlog]
    · rw [hlen, List.length_set]
    · intro j hj
      rw [hpres j (by omega), List.get?_set_ne _ _ (by omega)]

/-- C4: one tick of a Selector behaves dually to a Sequence.  With children
c..k-1 reporting Failure (each tried in order within the same tick, as the log
shows): if child k reports Success the Selector returns Success with cursor 0;
if child k reports Running the Selector returns Running with the cursor left
at k; if child k is the last child and also reports Failure the Selector
returns Failure with cursor 0.  Concretely, a Selector of a Failure leaf and a
Success leaf ticked once returns Success having visited both children in that
single tick. -/
theorem claim4_selector_dual {τ E : Type} (ct : τ → E → Option (BtState × τ × E))
    (children : List (Nat × τ)) (c k : Nat) (env : E)
    (hck : c ≤ k) (hk : k < children.length)
    (htag : ∀ i x, children.get? i = some x → x.1 = i)
    (hpre : ∀ i x, c ≤ i → i < k → children.get? i = some x →
      ∀ env2, ∃ y e2, ct x.2 env2 = some (BtState.Failure, y, e2)) :
    ((∀ x, children.get? k = some x →
        ∀ env2, ∃ y e2, ct x.2 env2 = some (BtState.Success, y, e2)) →
      ∃ ch2 env2, Selector.tick (logTick ct) ⟨children, c⟩ (env, []) =
        some (BtState.Success, ⟨ch2, 0⟩, (env2, List.range' c (k - c + 1)))) ∧
    ((∀ x, children.get? k = some x →
        ∀ env2, ∃ y e2, ct x.2 env2 = some (BtState.Running, y, e2)) →
      ∃ ch2 env2, Selector.tick (logTick ct) ⟨children, c⟩ (env, []) =
        some (BtState.Running, ⟨ch2, k⟩, (env2, List.range' c (k - c + 1)))) ∧
    (k = children.length - 1 →
      (∀ x, children.get? k = some x →
        ∀ env2, ∃ y e2, ct x.2 env2 = some (BtState.Failure, y, e2)) →
      ∃ ch2 env2, Selector.tick (logTick ct) ⟨children, c⟩ (env, []) =
        some (BtState.Failure, ⟨ch2, 0⟩, (env2, List.range' c (k - c + 1)))) ∧
    Selector.tick (logTick (fun (b : Bool) (_ : Unit) =>
        some (if b then BtState.Success else BtState.Failure, b, ())))
      (select [(0, false), (1, true)]) ((), []) =
      some (BtState.Success, ⟨[(0, false), (1, true)], 0⟩, ((), [0, 1])) := by
  obtain ⟨ch2, e3, heq, hlen, htag2, hpres⟩ :=
    sel_reach ct (k - c) (children.length + 1 - (k - c)) children c env [] (by omega) htag
      (fun i x h1 h2 hx env2 => hpre i x h1 (by omega) hx env2)
  have hkc : c + (k - c) = k := by omega
  rw [hkc] at heq hpres
  have hgetc : children.get? k = some (children.get ⟨k, hk⟩) := List.get?_eq_get hk
  rcases hxeq : children.get ⟨k, hk⟩ with ⟨j, cst⟩
  rw [hxeq] at hgetc
  have htagj : j = k := htag _ _ hgetc
  rw [htagj] at hgetc
  have hget2 : ch2.get? k = some (k, cst) := by
    rw [hpres k (Nat.le_refl k)]
    exact hgetc
  have hrange : List.range' c (k - c) ++ [k] = List.range' c (k - c + 1) := by
    rw [List.range'_1_concat, hkc]
  refine ⟨?_, ?_, ?_, ?_⟩
  · intro hS
    obtain ⟨y, e4, hct⟩ := hS _ hgetc e3
    have hct2 : ct cst e3 = some (BtState.Success, y, e4) := hct
    refine ⟨ch2.set k (k, y), e4, ?_⟩
    simp only [Selector.tick]
    rw [(by omega : children.length + 1 = (children.length + 1 - (k - c)) + (k - c)), heq]
    rw [List.nil_append]
    rw [(by omega : children.length + 1 - (k - c) = (children.length - (k - c)) + 1)]
    rw [selTickLoop_step_success ct (children.length - (k - c)) ch2 k e3
      (List.range' c (k - c)) k cst y e4 hget2 hct2]
    rw [hrange]
  · intro hR
    obtain ⟨y, e4, hct⟩ := hR _ hgetc e3
    have hct2 : ct cst e3 = some (BtState.Running, y, e4) := hct
    refine ⟨ch2.set k (k, y), e4, ?_⟩
    simp only [Selector.tick]
    rw [(by omega : children.length + 1 = (children.length + 1 - (k - c)) + (k - c)), heq]
    rw [List.nil_append]
    rw [(by omega : children.length + 1 - (k - c) = (children.length - (k - c)) + 1)]
    rw [selTickLoop_step_running ct (children.length - (k - c)) ch2 k e3
      (List.range' c (k - c)) k cst y e4 hget2 hct2]
    rw [hrange]
  · intro hlast hF
    obtain ⟨y, e4, hct⟩ := hF _ hgetc e3
    have hct2 : ct cst e3 = some (BtState.Failure, y, e4) := hct
    have hcond : k + 1 = (ch2.set k (k, y)).length := by
      rw [List.length_set, hlen]
      omega
    refine ⟨ch2.set k (k, y), e4, ?_⟩
    simp only [Selector.tick]
    rw [(by omega : children.length + 1 = (children.length + 1 - (k - c)) + (k - c)), heq]
    rw [List.nil_append]
    rw [(by omega : children.length + 1 - (k - c) = (children.length - (k - c)) + 1)]
    rw [selTickLoop_step_failure_last ct (children.length - (k - c)) ch2 k e3
      (List.range' c (k - c)) k cst y e4 hget2 hct2 hcond]
    rw [hrange]
  · rfl

/-- Witness for C4 at a concrete input: a one-child Selector whose child
always reports Success (plus the concrete two-leaf scenario contained in the
theorem itself). -/
theorem claim4_selector_dual_witness :
    ∃ ch2 env2,
      Selector.tick (logTick (fun (_ : Unit) (_ : Unit) => some (BtState.Success, (), ())))
        (⟨[(0, ())], 0⟩ : Selector (Nat × Unit)) ((), []) =
        some (BtState.Success, ⟨ch2, 0⟩, (env2, List.range' 0 1)) :=
  (claim4_selector_dual _ [(0, ())] 0 0 ()
    (Nat.le_refl 0)
    (by decide)
    (by
      intro i x h
      match i, h with
      | 0, h =>
        injection h with h2
        rw [← h2]
      | n + 1, h => simp [List.get?] at h)
    (fun i x h1 h2 hx env2 => absurd h2 (by omega))).1
    (fun _ _ _ => ⟨(), (), rfl⟩)

/-- C5 counterexample: a Sequence with a single child that reports Running
returns Running with the cursor equal to 0, so the cursor being 0 does not
imply that the tick returned a terminal status (the claimed equivalence fails
in that direction). -/
theorem claim5_counterexample :
    Sequence.tick (fun (_ : Unit) (_ : Unit) => some (BtState.Running, (), ()))
      (sequence [()]) () = some (BtState.Running, ⟨[()], 0⟩, ()) ∧
    ¬ (BtState.Running = BtState.Success ∨ BtState.Running = BtState.Failure) :=
  ⟨rfl, by decide⟩

/-- Invariant of the Sequence loop: a returned status is never NotStarted;
the children count is preserved; the cursor stays in range; the cursor is
reset to 0 whenever a terminal status is returned; and on Running the cursor
is at least the entry cursor and holds the child state produced by the tick
that returned Running together with the final environment. -/
theorem seq_loop_invariant {τ E : Type} (ct : τ → E → Option (BtState × τ × E)) :
    ∀ (fuel : Nat) (children : List τ) (cur : Nat) (env : E)
      (ret : BtState) (ch2 : List τ) (cur2 : Nat) (env2 : E),
    seqTickLoop ct fuel children cur env = some (ret, ch2, cur2, env2) →
    ch2.length = children.length ∧
    cur2 < children.length ∧
    ret ≠ BtState.NotStarted ∧
    ((ret = BtState.Success ∨ ret = BtState.Failure) → cur2 = 0) ∧
    (ret = BtState.Running → cur ≤ cur2 ∧
      ∃ prev y e3, ch2.get? cur2 = some y ∧ ct prev e3 = some (BtState.Running, y, env2)) := by
  intro fuel
  induction fuel with
  | zero =>
    intro children cur env ret ch2 cur2 env2 h
    simp [seqTickLoop] at h
  | succ fuel ih =>
    intro children cur env ret ch2 cur2 env2 h
    rcases hget : children.get? cur with _ | x
    · simp only [seqTickLoop, hget] at h
      exact Option.noConfusion h
    · have hcur : cur < children.length := by
        rcases List.get?_eq_some.mp hget with ⟨hlt, _⟩
        exact hlt
      rcases hct : ct x env with _ | ⟨ret0, c2, e2⟩
      · simp only [seqTickLoop, hget, hct] at h
        exact Option.noConfusion h
      · cases ret0 with
        | Running =>
          simp only [seqTickLoop, hget, hct, Option.some.injEq, Prod.mk.injEq] at h
          obtain ⟨h1, h2, h3, h4⟩ := h
          subst h1
          subst h2
          subst h3
          subst h4
          refine ⟨List.length_set children cur c2, hcur, by decide, ?_, ?_⟩
          · intro h5
            rcases h5 with h5 | h5 <;> exact absurd h5 (by decide)
          · intro _
            exact ⟨Nat.le_refl cur, x, c2, env, List.get?_set_eq_of_lt _ hcur, hct⟩
        | Failure =>
          simp only [seqTickLoop, hget, hct, Option.some.injEq, Prod.mk.injEq] at h
          obtain ⟨h1, h2, h3, h4⟩ := h
          subst h1
          subst h2
          subst h3
          subst h4
          refine ⟨List.length_set children cur c2, by omega, by decide, fun _ => rfl, ?_⟩
          intro hr
          exact absurd hr (by decide)
        | NotStarted =>
          simp only [seqTickLoop, hget, hct] at h
          exact Option.noConfusion h
        | Success =>
          simp only [seqTickLoop, hget, hct] at h
          by_cases hcond : cur + 1 = (children.set cur c2).length
          · rw [if_pos hcond] at h
            simp only [Option.some.injEq, Prod.mk.injEq] at h
            obtain ⟨h1, h2, h3, h4⟩ := h
            subst h1
            subst h2
            subst h3
            subst h4
            refine ⟨List.length_set children cur c2, by omega, by decide, fun _ => rfl, ?_⟩
            intro hr
            exact absurd hr (by decide)
          · rw [if_neg hcond] at h
            obtain ⟨l1, l2, l3, l4, l5⟩ := ih _ _ _ _ _ _ _ h
            rw [List.length_set] at l1 l2
            refine ⟨l1, l2, l3, l4, ?_⟩
            intro hr
            obtain ⟨l6, l7⟩ := l5 hr
            exact ⟨by omega, l7⟩

/-- Invariant of the Selector loop, dual to seq_loop_invariant. -/
theorem sel_loop_invariant {τ E : Type} (ct : τ → E → Option (BtState × τ × E)) :
    ∀ (fuel : Nat) (children : List τ) (cur : Nat) (env : E)
      (ret : BtState) (ch2 : List τ) (cur2 : Nat) (env2 : E),
    selTickLoop ct fuel children cur env = some (ret, ch2, cur2, env2) →
    ch2.length = children.length ∧
    cur2 < children.length ∧
    ret ≠ BtState.NotStarted ∧
    ((ret = BtState.Success ∨ ret = BtState.Failure) → cur2 = 0) ∧
    (ret = BtState.Running → cur ≤ cur2 ∧
      ∃ prev y e3, ch2.get? cur2 = some y ∧ ct prev e3 = some (BtState.Running, y, env2)) := by
  intro fuel
  induction fuel with
  | zero =>
    intro children cur env ret ch2 cur2 env2 h
    simp [selTickLoop] at h
  | succ fuel ih =>
    intro children cur env ret ch2 cur2 env2 h
    rcases hget : children.get? cur with _ | x
    · simp only [selTickLoop, hget] at h
      exact Option.noConfusion h
    · have hcur : cur < children.length := by
        rcases List.get?_eq_some.mp hget with ⟨hlt, _⟩
        exact hlt
      rcases hct : ct x env with _ | ⟨ret0, c2, e2⟩
      · simp only [selTickLoop, hget, hct] at h
        exact Option.noConfusion h
      · cases ret0 with
        | Running =>
          simp only [selTickLoop, hget, hct, Option.some.injEq, Prod.mk.injEq] at h
          obtain ⟨h1, h2, h3, h4⟩ := h
          subst h1
          subst h2
          subst h3
          subst h4
          refine ⟨List.length_set children cur c2, hcur, by decide, ?_, ?_⟩
          · intro h5
            rcases h5 with h5 | h5 <;> exact absurd h5 (by decide)
          · intro _
            exact ⟨Nat.le_refl cur, x, c2, env, List.get?_set_eq_of_lt _ hcur, hct⟩
        | Success =>
          simp only [selTickLoop, hget, hct, Option.some.injEq, Prod.mk.injEq] at h
          obtain ⟨h1, h2, h3, h4⟩ := h
          subst h1
          subst h2
          subst h3
          subst h4
          refine ⟨List.length_set children cur c2, by omega, by decide, fun _ => rfl, ?_⟩
          intro hr
          exact absurd hr (by decide)
        | NotStarted =>
          simp only [selTickLoop, hget, hct] at h
          exact Option.noConfusion h
        | Failure =>
          simp only [selTickLoop, hget, hct] at h
          by_cases hcond : cur + 1 = (children.set cur c2).length
          · rw [if_pos hcond] at h
            simp only [Option.some.injEq, Prod.mk.injEq] at h
            obtain ⟨h1, h2, h3, h4⟩ := h
            subst h1
            subst h2
            subst h3
            subst h4
            refine ⟨List.length_set children cur c2, by omega, by decide, fun _ => rfl, ?_⟩
            intro hr
            exact absurd hr (by decide)
          · rw [if_neg hcond] at h
            obtain ⟨l1, l2, l3, l4, l5⟩ := ih _ _ _ _ _ _ _ h
            rw [List.length_set] at l1 l2
            refine ⟨l1, l2, l3, l4, ?_⟩
            intro hr
            obtain ⟨l6, l7⟩ := l5 hr
            exact ⟨by omega, l7⟩

/-- C5 amended: after any non-panicking tick of a Sequence or Selector, the
cursor lies in [0, children.length); if the tick returned Success or Failure
the cursor was reset to 0; if the tick returned Running the cursor is at least
the entry cursor and holds the child state produced by the child tick that
returned Running (together with the final environment).  The original claim's
converse direction — cursor 0 implying a terminal status — is false (see the
counterexample: the cursor is also 0 when child 0 returns Running). -/
theorem claim5_amended_cursor_invariant {τ E : Type} (ct : τ → E → Option (BtState × τ × E)) :
    (∀ (children : List τ) (cur : Nat) (env : E) (ret : BtState)
        (s2 : Sequence τ) (env2 : E),
      Sequence.tick ct ⟨children, cur⟩ env = some (ret, s2, env2) →
      s2.children.length = children.length ∧
      s2.current_child < children.length ∧
      ((ret = BtState.Success ∨ ret = BtState.Failure) → s2.current_child = 0) ∧
      (ret = BtState.Running → cur ≤ s2.current_child ∧
        ∃ prev y e3, s2.children.get? s2.current_child = some y ∧
          ct prev e3 = some (BtState.Running, y, env2))) ∧
    (∀ (children : List τ) (cur : Nat) (env : E) (ret : BtState)
        (s2 : Selector τ) (env2 : E),
      Selector.tick ct ⟨children, cur⟩ env = some (ret, s2, env2) →
      s2.children.length = children.length ∧
      s2.current_child < children.length ∧
      ((ret = BtState.Success ∨ ret = BtState.Failure) → s2.current_child = 0) ∧
      (ret = BtState.Running → cur ≤ s2.current_child ∧
        ∃ prev y e3, s2.children.get? s2.current_child = some y ∧
          ct prev e3 = some (BtState.Running, y, env2))) := by
  constructor
  · intro children cur env ret s2 env2 h
    simp only [Sequence.tick] at h
    rcases hloop : seqTickLoop ct (children.length + 1) children cur env with _ | ⟨r, ch, cu, e⟩
    · rw [hloop] at h
      cases h
    · rw [hloop] at h
      cases h
      obtain ⟨l1, l2, _, l4, l5⟩ := seq_loop_invariant ct _ _ _ _ _ _ _ _ hloop
      exact ⟨l1, l2, l4, l5⟩
  · intro children cur env ret s2 env2 h
    simp only [Selector.tick] at h
    rcases hloop : selTickLoop ct (children.length + 1) children cur env with _ | ⟨r, ch, cu, e⟩
    · rw [hloop] at h
      cases h
    · rw [hloop] at h
      cases h
      obtain ⟨l1, l2, _, l4, l5⟩ := sel_loop_invariant ct _ _ _ _ _ _ _ _ hloop
      exact ⟨l1, l2, l4, l5⟩

/-- Witness for the amended C5 at a concrete input: a one-child Sequence whose
child reports Running. -/
theorem claim5_amended_cursor_invariant_witness :
    (⟨[()], 0⟩ : Sequence Unit).children.length = ([()] : List Unit).length ∧
    (⟨[()], 0⟩ : Sequence Unit).current_child < ([()] : List Unit).length ∧
    ((BtState.Running = BtState.Success ∨ BtState.Running = BtState.Failure) →
      (⟨[()], 0⟩ : Sequence Unit).current_child = 0) ∧
    (BtState.Running = BtState.Running →
      0 ≤ (⟨[()], 0⟩ : Sequence Unit).current_child ∧
      ∃ prev y e3,
        (⟨[()], 0⟩ : Sequence Unit).children.get?
          (⟨[()], 0⟩ : Sequence Unit).current_child = some y ∧
        (fun (_ : Unit) (_ : Unit) => some (BtState.Running, (), ())) prev e3 =
          some (BtState.Running, y, ())) :=
  (claim5_amended_cursor_invariant
    (fun (_ : Unit) (_ : Unit) => some (BtState.Running, (), ()))).1
    [()] 0 () BtState.Running ⟨[()], 0⟩ () rfl

/-- C6: run_or_fail is a two-phase one-shot.  From the initial NotStarted
state, a tick where the predicate returns true yields Running with the final
environment being exactly the predicate's single output (it is invoked exactly
once); from the Running state the next tick yields Success with the
environment untouched (the predicate is not invoked at all, whatever it is)
and the internal state restored to the initial one, so a third tick behaves
exactly like the first; from the initial state a tick where the predicate
returns false yields Failure and leaves the internal state NotStarted, so a
later tick with the predicate true still starts the two-phase run. -/
theorem claim6_run_or_fail {E : Type} (func : E → Bool × E) :
    (∀ env env2, func env = (true, env2) →
      RunOrFail.tick func runOrFailInit env =
        some (BtState.Running, ⟨BtState.Running⟩, env2)) ∧
    (∀ env, RunOrFail.tick func ⟨BtState.Running⟩ env =
      some (BtState.Success, runOrFailInit, env)) ∧
    (∀ env env2, func env = (false, env2) →
      RunOrFail.tick func runOrFailInit env =
        some (BtState.Failure, runOrFailInit, env2)) := by
  refine ⟨?_, ?_, ?_⟩
  · intro env env2 h
    simp only [RunOrFail.tick, runOrFailInit, h]
  · intro env
    rfl
  · intro env env2 h
    simp only [RunOrFail.tick, runOrFailInit, h]

/-- Witness for C6 at concrete inputs: a predicate that increments a counter
environment and returns true (resp. false). -/
theorem claim6_run_or_fail_witness :
    RunOrFail.tick (fun (n : Nat) => (true, n + 1)) runOrFailInit 0 =
      some (BtState.Running, ⟨BtState.Running⟩, 1) ∧
    RunOrFail.tick (fun (n : Nat) => (true, n + 1)) ⟨BtState.Running⟩ 5 =
      some (BtState.Success, runOrFailInit, 5) ∧
    RunOrFail.tick (fun (n : Nat) => (false, n + 1)) runOrFailInit 0 =
      some (BtState.Failure, runOrFailInit, 1) :=
  ⟨(claim6_run_or_fail (fun (n : Nat) => (true, n + 1))).1 0 1 rfl,
   (claim6_run_or_fail (fun (n : Nat) => (true, n + 1))).2.1 5,
   (claim6_run_or_fail (fun (n : Nat) => (false, n + 1))).2.2 0 1 rfl⟩

/-- C7: contract violations are fatal, never converted to a returned Failure:
a child reporting NotStarted makes a Sequence or Selector tick panic (modelled
as none, not any returned status), and a run_or_fail leaf whose internal state
is Success or Failure at the start of a tick hits unreachable code (none). -/
theorem claim7_contract_violation_fatal {τ E : Type} (ct : τ → E → Option (BtState × τ × E)) :
    (∀ (children : List τ) (cur : Nat) (env : E) (x y : τ) (e2 : E),
      children.get? cur = some x → ct x env = some (BtState.NotStarted, y, e2) →
      Sequence.tick ct ⟨children, cur⟩ env = none) ∧
    (∀ (children : List τ) (cur : Nat) (env : E) (x y : τ) (e2 : E),
      children.get? cur = some x → ct x env = some (BtState.NotStarted, y, e2) →
      Selector.tick ct ⟨children, cur⟩ env = none) ∧
    (∀ (func : E → Bool × E) (st : BtState) (env : E),
      st = BtState.Success ∨ st = BtState.Failure →
      RunOrFail.tick func ⟨st⟩ env = none) := by
  refine ⟨?_, ?_, ?_⟩
  · intro children cur env x y e2 hget hct
    simp only [Sequence.tick, seqTickLoop, hget, hct]
  · intro children cur env x y e2 hget hct
    simp only [Selector.tick, selTickLoop, hget, hct]
  · intro func st env h
    rcases h with h | h <;> subst h <;> rfl

/-- Witness for C7 at concrete inputs. -/
theorem claim7_contract_violation_fatal_witness :
    Sequence.tick (fun (_ : Unit) (_ : Unit) => some (BtState.NotStarted, (), ()))
      ⟨[()], 0⟩ () = none ∧
    Selector.tick (fun (_ : Unit) (_ : Unit) => some (BtState.NotStarted, (), ()))
      ⟨[()], 0⟩ () = none ∧
    RunOrFail.tick (fun (u : Unit) => (true, u)) ⟨BtState.Success⟩ () = none :=
  ⟨(claim7_contract_violation_fatal
      (fun (_ : Unit) (_ : Unit) => some (BtState.NotStarted, (), ()))).1
      [()] 0 () () () () rfl rfl,
   (claim7_contract_violation_fatal
      (fun (_ : Unit) (_ : Unit) => some (BtState.NotStarted, (), ()))).2.1
      [()] 0 () () () () rfl rfl,
   (claim7_contract_violation_fatal
      (fun (_ : Unit) (_ : Unit) => some (BtState.NotStarted, (), ()))).2.2
      (fun (u : Unit) => (true, u)) BtState.Success () (Or.inl rfl)⟩

/-- C8 counterexample: `lambda(f)` simply forwards the closure's status, so
for the closure that returns NotStarted, the node built by `lambda` returns
NotStarted from its tick — the claim is false for an arbitrary closure of the
tick signature. -/
theorem claim8_counterexample :
    (lambdaTick (fun (e : Unit) => (BtState.NotStarted, e)) ()).1 = BtState.NotStarted :=
  rfl

/-- C8 amended: nodes built by `condition`, `run_or_fail`, `sequence` and
`select` never return NotStarted from a tick that returns at all, and a node
built by `lambda(f)` never returns NotStarted provided the closure `f` itself
does not; the guarantee does not hold for `lambda` with an arbitrary closure
(see the counterexample). -/
theorem claim8_amended_no_notstarted {τ E : Type} :
    (∀ (p : E → Bool × E) (env : E), (conditionFunc p env).1 ≠ BtState.NotStarted) ∧
    (∀ (func : E → Bool × E) (n : RunOrFail) (env : E) (out : BtState × RunOrFail × E),
      RunOrFail.tick func n env = some out → out.1 ≠ BtState.NotStarted) ∧
    (∀ (ct : τ → E → Option (BtState × τ × E)) (s : Sequence τ) (env : E)
        (out : BtState × Sequence τ × E),
      Sequence.tick ct s env = some out → out.1 ≠ BtState.NotStarted) ∧
    (∀ (ct : τ → E → Option (BtState × τ × E)) (s : Selector τ) (env : E)
        (out : BtState × Selector τ × E),
      Selector.tick ct s env = some out → out.1 ≠ BtState.NotStarted) ∧
    (∀ (f : E → BtState × E) (env : E),
      (f env).1 ≠ BtState.NotStarted → (lambdaTick f env).1 ≠ BtState.NotStarted) := by
  refine ⟨?_, ?_, ?_, ?_, ?_⟩
  · intro p env
    rcases hp : p env with ⟨b, e2⟩
    simp only [conditionFunc, hp]
    cases b <;> decide
  · intro func n env out h
    rcases n with ⟨st⟩
    cases st with
    | NotStarted =>
      rcases hf : func env with ⟨b, e2⟩
      simp only [RunOrFail.tick, hf] at h
      cases b <;> cases h <;> exact fun hc => BtState.noConfusion hc
    | Running =>
      simp only [RunOrFail.tick] at h
      cases h
      exact fun hc => BtState.noConfusion hc
    | Success => exact Option.noConfusion h
    | Failure => exact Option.noConfusion h
  · intro ct s env out h
    rcases s with ⟨children, cur⟩
    simp only [Sequence.tick] at h
    rcases hloop : seqTickLoop ct (children.length + 1) children cur env with _ | ⟨r, ch, cu, e⟩
    · rw [hloop] at h
      cases h
    · rw [hloop] at h
      cases h
      exact (seq_loop_invariant ct _ _ _ _ _ _ _ _ hloop).2.2.1
  · intro ct s env out h
    rcases s with ⟨children, cur⟩
    simp only [Selector.tick] at h
    rcases hloop : selTickLoop ct (children.length + 1) children cur env with _ | ⟨r, ch, cu, e⟩
    · rw [hloop] at h
      cases h
    · rw [hloop] at h
      cases h
      exact (sel_loop_invariant ct _ _ _ _ _ _ _ _ hloop).2.2.1
  · intro f env h
    exact h

/-- Witness for the amended C8 at concrete inputs. -/
theorem claim8_amended_no_notstarted_witness :
    (conditionFunc (fun (u : Unit) => (true, u)) ()).1 ≠ BtState.NotStarted ∧
    (BtState.Success, (⟨BtState.NotStarted⟩ : RunOrFail), ()).1 ≠ BtState.NotStarted ∧
    (BtState.Running, (⟨[()], 0⟩ : Sequence Unit), ()).1 ≠ BtState.NotStarted ∧
    (BtState.Running, (⟨[()], 0⟩ : Selector Unit), ()).1 ≠ BtState.NotStarted ∧
    (lambdaTick (fun (e : Unit) => (BtState.Success, e)) ()).1 ≠ BtState.NotStarted :=
  ⟨(@claim8_amended_no_notstarted Unit Unit).1 (fun (u : Unit) => (true, u)) (),
   (@claim8_amended_no_notstarted Unit Unit).2.1 (fun (u : Unit) => (true, u))
     ⟨BtState.Running⟩ () (BtState.Success, ⟨BtState.NotStarted⟩, ()) rfl,
   (@claim8_amended_no_notstarted Unit Unit).2.2.1
     (fun (_ : Unit) (_ : Unit) => some (BtState.Running, (), ())) ⟨[()], 0⟩ ()
     (BtState.Running, ⟨[()], 0⟩, ()) rfl,
   (@claim8_amended_no_notstarted Unit Unit).2.2.2.1
     (fun (_ : Unit) (_ : Unit) => some (BtState.Running, (), ())) ⟨[()], 0⟩ ()
     (BtState.Running, ⟨[()], 0⟩, ()) rfl,
   (@claim8_amended_no_notstarted Unit Unit).2.2.2.2
     (fun (e : Unit) => (BtState.Success, e)) () (by decide)⟩

/-- C9 (modelled from the spec, the decorator's defining source being outside
src/): each tick of an interrupt node first evaluates the monitor; if true the
fallback subtree is ticked and its status returned with the primary subtree's
state untouched; if false the primary subtree is ticked and its status
returned with the fallback subtree's state untouched.  In particular, with a
monitor false on tick 1 and true on tick 2, tick 1 drives the primary subtree
(even mid-Running) and tick 2 drives the fallback subtree, and switching
resets neither subtree's internal state. -/
theorem claim9_interrupt {π φ E : Type} (monitor : E → Bool)
    (pTick : π → E → Option (BtState × π × E))
    (fTick : φ → E → Option (BtState × φ × E))
    (node : Interrupt π φ) (env : E) :
    (monitor env = true → ∀ ret f2 env2, fTick node.fallback env = some (ret, f2, env2) →
      Interrupt.tick monitor pTick fTick node env = some (ret, ⟨node.primary, f2⟩, env2)) ∧
    (monitor env = false → ∀ ret p2 env2, pTick node.primary env = some (ret, p2, env2) →
      Interrupt.tick monitor pTick fTick node env = some (ret, ⟨p2, node.fallback⟩, env2)) ∧
    (monitor env = false → ∀ ret p2 env2, pTick node.primary env = some (ret, p2, env2) →
      monitor env2 = true → ∀ ret2 f2 env3, fTick node.fallback env2 = some (ret2, f2, env3) →
      Interrupt.tick monitor pTick fTick node env = some (ret, ⟨p2, node.fallback⟩, env2) ∧
      Interrupt.tick monitor pTick fTick ⟨p2, node.fallback⟩ env2 =
        some (ret2, ⟨p2, f2⟩, env3)) := by
  refine ⟨?_, ?_, ?_⟩
  · intro hm ret f2 env2 hf
    simp only [Interrupt.tick]
    rw [if_pos hm, hf]
  · intro hm ret p2 env2 hp
    simp only [Interrupt.tick]
    rw [if_neg (by simp [hm]), hp]
  · intro hm ret p2 env2 hp hm2 ret2 f2 env3 hf
    constructor
    · simp only [Interrupt.tick]
      rw [if_neg (by simp [hm]), hp]
    · simp only [Interrupt.tick]
      rw [if_pos hm2, hf]

/-- Witness for C9 at a concrete input: a counter environment, a monitor that
trips once the counter reaches 1, a primary that reports Running and adds 1,
and a fallback that reports Success and adds 10. -/
theorem claim9_interrupt_witness :
    Interrupt.tick (fun (n : Nat) => decide (1 ≤ n))
      (fun (_ : Unit) (n : Nat) => some (BtState.Running, (), n + 1))
      (fun (_ : Unit) (n : Nat) => some (BtState.Success, (), n + 10))
      ⟨(), ()⟩ 0 = some (BtState.Running, ⟨(), ()⟩, 1) ∧
    Interrupt.tick (fun (n : Nat) => decide (1 ≤ n))
      (fun (_ : Unit) (n : Nat) => some (BtState.Running, (), n + 1))
      (fun (_ : Unit) (n : Nat) => some (BtState.Success, (), n + 10))
      ⟨(), ()⟩ 1 = some (BtState.Success, ⟨(), ()⟩, 11) :=
  (claim9_interrupt (fun (n : Nat) => decide (1 ≤ n))
    (fun (_ : Unit) (n : Nat) => some (BtState.Running, (), n + 1))
    (fun (_ : Unit) (n : Nat) => some (BtState.Success, (), n + 10))
    ⟨(), ()⟩ 0).2.2 rfl BtState.Running () 1 rfl rfl BtState.Success () 11 rfl

/-- Totality of the Sequence loop: with the cursor in range and every child
from the cursor onward returning some non-NotStarted status, the loop (with
sufficient fuel, as supplied by Sequence.tick) returns a result after ticking
the children at the consecutive indices c, c+1, ..., c+m once each, for some
m with c + m < children.length. -/
theorem seq_loop_total {τ E : Type} (ct : τ → E → Option (BtState × τ × E)) :
    ∀ (fuel : Nat) (children : List (Nat × τ)) (c : Nat) (env : E) (log : List Nat),
    children.length - c ≤ fuel → c < children.length →
    (∀ i x, children.get? i = some x → x.1 = i) →
    (∀ i x, c ≤ i → children.get? i = some x → ∀ e,
      ∃ ret y e2, ct x.2 e = some (ret, y, e2) ∧ ret ≠ BtState.NotStarted) →
    ∃ st ch2 cur2 env2 m,
      seqTickLoop (logTick ct) fuel children c (env, log) =
        some (st, ch2, cur2, (env2, log ++ List.range' c (m + 1))) ∧
      c + m < children.length := by
  intro fuel
  induction fuel with
  | zero =>
    intro children c env log hf hc _ _
    omega
  | succ fuel ih =>
    intro children c env log hf hc htag hOK
    rcases hxeq : children.get ⟨c, hc⟩ with ⟨i, cst⟩
    have hget : children.get? c = some (i, cst) := by
      rw [List.get?_eq_get hc, hxeq]
    have htagi : i = c := htag _ _ hget
    rw [htagi] at hget
    obtain ⟨ret, y, e2, hct, hns⟩ := hOK c (c, cst) (Nat.le_refl c) hget env
    have hct2 : ct cst env = some (ret, y, e2) := hct
    cases ret with
    | NotStarted => exact absurd rfl hns
    | Running =>
      refine ⟨BtState.Running, children.set c (c, y), c, e2, 0, ?_, by omega⟩
      rw [seqTickLoop_step_running ct fuel children c env log c cst y e2 hget hct2]
      simp
    | Failure =>
      refine ⟨BtState.Failure, children.set c (c, y), 0, e2, 0, ?_, by omega⟩
      rw [seqTickLoop_step_failure ct fuel children c env log c cst y e2 hget hct2]
      simp
    | Success =>
      by_cases hcond : c + 1 = (children.set c (c, y)).length
      · refine ⟨BtState.Success, children.set c (c, y), 0, e2, 0, ?_, by omega⟩
        rw [seqTickLoop_step_success_last ct fuel children c env log c cst y e2 hget hct2 hcond]
        simp
      · have hc1 : c + 1 < children.length := by
          rw [List.length_set] at hcond
          omega
        have hstep : seqTickLoop (logTick ct) (fuel + 1) children c (env, log) =
            seqTickLoop (logTick ct) fuel (children.set c (c, y)) (c + 1) (e2, log ++ [c]) := by
          simp only [seqTickLoop, hget, logTick, hct2]
          rw [if_neg hcond]
        obtain ⟨st, ch2, cur2, env2, m, hres, hm⟩ :=
          ih (children.set c (c, y)) (c + 1) e2 (log ++ [c])
            (by rw [List.length_set]; omega)
            (by rw [List.length_set]; omega)
            (tags_after_set children c y htag)
            (by
              intro j x hj hjget e
              rw [List.get?_set_ne _ _ (by omega)] at hjget
              exact hOK j x (by omega) hjget e)
        rw [List.length_set] at hm
        refine ⟨st, ch2, cur2, env2, m + 1, ?_, by omega⟩
        rw [hstep, hres]
        have h2 : List.range' c (m + 1 + 1) = c :: List.range' (c + 1) (m + 1) :=
          List.range'_succ c (m + 1) 1
        rw [List.append_assoc, h2]
        rfl

/-- Totality of the Selector loop, dual to seq_loop_total. -/
theorem sel_loop_total {τ E : Type} (ct : τ → E → Option (BtState × τ × E)) :
    ∀ (fuel : Nat) (children : List (Nat × τ)) (c : Nat) (env : E) (log : List Nat),
    children.length - c ≤ fuel → c < children.length →
    (∀ i x, children.get? i = some x → x.1 = i) →
    (∀ i x, c ≤ i → children.get? i = some x → ∀ e,
      ∃ ret y e2, ct x.2 e = some (ret, y, e2) ∧ ret ≠ BtState.NotStarted) →
    ∃ st ch2 cur2 env2 m,
      selTickLoop (logTick ct) fuel children c (env, log) =
        some (st, ch2, cur2, (env2, log ++ List.range' c (m + 1))) ∧
      c + m < children.length := by
  intro fuel
  induction fuel with
  | zero =>
    intro children c env log hf hc _ _
    omega
  | succ fuel ih =>
    intro children c env log hf hc htag hOK
    rcases hxeq : children.get ⟨c, hc⟩ with ⟨i, cst⟩
    have hget : children.get? c = some (i, cst) := by
      rw [List.get?_eq_get hc, hxeq]
    have htagi : i = c := htag _ _ hget
    rw [htagi] at hget
    obtain ⟨ret, y, e2, hct, hns⟩ := hOK c (c, cst) (Nat.le_refl c) hget env
    have hct2 : ct cst env = some (ret, y, e2) := hct
    cases ret with
    | NotStarted => exact absurd rfl hns
    | Running =>
      refine ⟨BtState.Running, children.set c (c, y), c, e2, 0, ?_, by omega⟩
      rw [selTickLoop_step_running ct fuel children c env log c cst y e2 hget hct2]
      simp
    | Success =>
      refine ⟨BtState.Success, children.set c (c, y), 0, e2, 0, ?_, by omega⟩
      rw [selTickLoop_step_success ct fuel children c env log c cst y e2 hget hct2]
      simp
    | Failure =>
      by_cases hcond : c + 1 = (children.set c (c, y)).length
      · refine ⟨BtState.Failure, children.set c (c, y), 0, e2, 0, ?_, by omega⟩
        rw [selTickLoop_step_failure_last ct fuel children c env log c cst y e2 hget hct2 hcond]
        simp
      · have hc1 : c + 1 < children.length := by
          rw [List.length_set] at hcond
          omega
        have hstep : selTickLoop (logTick ct) (fuel + 1) children c (env, log) =
            selTickLoop (logTick ct) fuel (children.set c (c, y)) (c + 1) (e2, log ++ [c]) := by
          simp only [selTickLoop, hget, logTick, hct2]
          rw [if_neg hcond]
        obtain ⟨st, ch2, cur2, env2, m, hres, hm⟩ :=
          ih (children.set c (c, y)) (c + 1) e2 (log ++ [c])
            (by rw [List.length_set]; omega)
            (by rw [List.length_set]; omega)
            (tags_after_set children c y htag)
            (by
              intro j x hj hjget e
              rw [List.get?_set_ne _ _ (by omega)] at hjget
              exact hOK j x (by omega) hjget e)
        rw [List.length_set] at hm
        refine ⟨st, ch2, cur2, env2, m + 1, ?_, by omega⟩
        rw [hstep, hres]
        have h2 : List.range' c (m + 1 + 1) = c :: List.range' (c + 1) (m + 1) :=
          List.range'_succ c (m + 1) 1
        rw [List.append_assoc, h2]
        rfl

/-- C10: one tick of a Sequence or Selector with entry cursor c in range,
whose children's individual ticks all return some non-NotStarted status,
terminates with a result, having ticked the children at the consecutive
indices c, c+1, ..., c+m exactly once each, in strictly increasing index
order, with c + m < n — that is, at most n - c children are ticked. -/
theorem claim10_composite_termination {τ E : Type} (ct : τ → E → Option (BtState × τ × E))
    (children : List (Nat × τ)) (c : Nat) (env : E)
    (hc : c < children.length)
    (htag : ∀ i x, children.get? i = some x → x.1 = i)
    (hOK : ∀ i x, children.get? i = some x → ∀ e,
      ∃ ret y e2, ct x.2 e = some (ret, y, e2) ∧ ret ≠ BtState.NotStarted) :
    (∃ st ch2 cur2 env2 m,
      Sequence.tick (logTick ct) ⟨children, c⟩ (env, []) =
        some (st, ⟨ch2, cur2⟩, (env2, List.range' c (m + 1))) ∧
      c + m < children.length) ∧
    (∃ st ch2 cur2 env2 m,
      Selector.tick (logTick ct) ⟨children, c⟩ (env, []) =
        some (st, ⟨ch2, cur2⟩, (env2, List.range' c (m + 1))) ∧
      c + m < children.length) := by
  constructor
  · obtain ⟨st, ch2, cur2, env2, m, hres, hm⟩ :=
      seq_loop_total ct (children.length + 1) children c env [] (by omega) hc htag
        (fun i x _ hx e => hOK i x hx e)
    rw [List.nil_append] at hres
    refine ⟨st, ch2, cur2, env2, m, ?_, hm⟩
    simp only [Sequence.tick]
    rw [hres]
  · obtain ⟨st, ch2, cur2, env2, m, hres, hm⟩ :=
      sel_loop_total ct (children.length + 1) children c env [] (by omega) hc htag
        (fun i x _ hx e => hOK i x hx e)
    rw [List.nil_append] at hres
    refine ⟨st, ch2, cur2, env2, m, ?_, hm⟩
    simp only [Selector.tick]
    rw [hres]

/-- Witness for C10 at a concrete input: a one-child composite whose child
always reports Running. -/
theorem claim10_composite_termination_witness :
    (∃ st ch2 cur2 env2 m,
      Sequence.tick (logTick (fun (_ : Unit) (_ : Unit) => some (BtState.Running, (), ())))
        (⟨[(0, ())], 0⟩ : Sequence (Nat × Unit)) ((), []) =
        some (st, ⟨ch2, cur2⟩, (env2, List.range' 0 (m + 1))) ∧
      0 + m < ([(0, ())] : List (Nat × Unit)).length) ∧
    (∃ st ch2 cur2 env2 m,
      Selector.tick (logTick (fun (_ : Unit) (_ : Unit) => some (BtState.Running, (), ())))
        (⟨[(0, ())], 0⟩ : Selector (Nat × Unit)) ((), []) =
        some (st, ⟨ch2, cur2⟩, (env2, List.range' 0 (m + 1))) ∧
      0 + m < ([(0, ())] : List (Nat × Unit)).length) :=
  claim10_composite_termination _ [(0, ())] 0 ()
    (by decide)
    (by
      intro i x h
      match i, h with
      | 0, h =>
        injection h with h2
        rw [← h2]
      | n + 1, h => simp [List.get?] at h)
    (fun i x h e => ⟨BtState.Running, (), (), rfl, by decide⟩)

end BT
